import Mathlib

/-!
Verification of the Protonic launch-options configurator.

The program edits Steam's `localconfig.vdf` as a flat text blob.  We embed the
file content as a `List Char` (one entry per byte; the source only ever slices
at positions produced by substring searches of ASCII patterns, so byte and
character positions coincide there).  `findSub` models Rust's `str::find`,
returning the first position at which the pattern occurs.
-/

set_option maxRecDepth 8000

namespace Protonic

instance {ε α : Type} [DecidableEq ε] [DecidableEq α] : DecidableEq (Except ε α) := fun x y =>
  match x, y with
  | .ok a, .ok b =>
    if h : a = b then isTrue (by rw [h]) else isFalse (by intro hc; cases hc; exact h rfl)
  | .error a, .error b =>
    if h : a = b then isTrue (by rw [h]) else isFalse (by intro hc; cases hc; exact h rfl)
  | .ok _, .error _ => isFalse (by intro hc; cases hc)
  | .error _, .ok _ => isFalse (by intro hc; cases hc)

/-- The double-quote byte, written via its code point. -/
def dq : Char := Char.ofNat 34

/-- The opening-brace byte, written via its code point. -/
def lb : Char := Char.ofNat 123

/-- Model of Rust `str::find` for a substring pattern: the least index at which
`pat` occurs in `l`, if any. -/
def findSub : List Char → List Char → Option Nat
  | [], pat => bif pat.isPrefixOf ([] : List Char) then some 0 else none
  | c :: t, pat =>
    bif pat.isPrefixOf (c :: t) then some 0
    else (findSub t pat).map (· + 1)

/-- Whether `pat` occurs in `l` starting at index `j`. -/
def occursAt (l pat : List Char) (j : Nat) : Bool :=
  pat.isPrefixOf (l.drop j)

/-- Model of Rust `str::contains` for a substring pattern. -/
def containsSub (l pat : List Char) : Bool :=
  (findSub l pat).isSome

/-- Number of positions of `l` at which `pat` occurs. -/
def countSub : List Char → List Char → Nat
  | [], pat => bif pat.isPrefixOf ([] : List Char) then 1 else 0
  | c :: t, pat =>
    (bif pat.isPrefixOf (c :: t) then 1 else 0) + countSub t pat

/-- The app-id token with surrounding quotes, `format!` of line 138. -/
def vdfQuote (appId : List Char) : List Char := dq :: appId ++ [dq]

/-- The quoted key `"LaunchOptions"` (15 bytes). -/
def launchOptionsKey : List Char := dq :: "LaunchOptions".toList ++ [dq]

/-- The literal `protonhax`. -/
def protonhaxTok : List Char := "protonhax".toList

/-- The literal `%COMMAND%`. -/
def commandTok : List Char := "%COMMAND%".toList

/-- Lines 173-177 of `main.rs`: the replacement launch-options value built
from the existing value. -/
def new_options (existing : List Char) : List Char :=
  if existing.isEmpty then "protonhax init %COMMAND%".toList
  else "protonhax init ".toList ++ existing ++ " %COMMAND%".toList

/-- Lines 192-196 of `main.rs`: the line inserted when no `LaunchOptions` key
is found (newline, seven tabs, quoted key, two tabs, quoted value). -/
def new_line : List Char :=
  '\n' :: List.replicate 7 '\t' ++ launchOptionsKey
    ++ ['\t', '\t'] ++ (dq :: "protonhax init %COMMAND%".toList ++ [dq])

/-- Shared tail of `has_protonhax_configured` (lines 106-117 of `main.rs`):
given the 500-byte search window starting at the app-id token, decide whether
the first `"LaunchOptions"` value in it contains `protonhax`. -/
def checkWindow (search_area : List Char) : Bool :=
  match findSub search_area launchOptionsKey with
  | none => false
  | some launch_pos =>
    let after_launch := search_area.drop launch_pos
    match findSub (after_launch.drop 15) [dq] with
    | none => false
    | some first_quote =>
      let value_start := 15 + first_quote + 1
      match findSub (after_launch.drop value_start) [dq] with
      | none => false
      | some end_quote =>
        containsSub ((after_launch.drop value_start).take end_quote) protonhaxTok

/-- Lines 98-122 of `main.rs` (`has_protonhax_configured`), with the file
content passed in place of the file read: look for the quoted app id, then
inspect the 500-byte window starting at it. -/
def has_protonhax_configured (content appId : List Char) : Bool :=
  match findSub content (vdfQuote appId) with
  | none => false
  | some app_pos => checkWindow ((content.drop app_pos).take 500)

/-- Lines 125-211 of `main.rs` (`configure_launch_options`), with the file
content passed in place of the file read and the written content returned in
place of the file write.  `Except.error` is returned exactly when the Rust
function returns `Err` before reaching `fs::write`. -/
def configure_launch_options (content appId : List Char) :
    Except String (List Char × String) :=
  if has_protonhax_configured content appId then
    .ok (content, "Launch options already configured")
  else
    match findSub content (vdfQuote appId) with
    | none =>
      .error "Game not found in Steam config. Launch the game from Steam at least once first."
    | some app_pos =>
      let app_len := (vdfQuote appId).length
      match findSub (content.drop (app_pos + app_len)) [lb] with
      | none => .error "Invalid VDF structure"
      | some brace_offset =>
        let section_start := app_pos + app_len + brace_offset + 1
        let search_area := (content.drop section_start).take 500
        match findSub search_area launchOptionsKey with
        | some launch_pos =>
          let abs_launch_pos := section_start + launch_pos
          match findSub (content.drop (abs_launch_pos + 15)) [dq] with
          | none => .error "Invalid LaunchOptions format"
          | some first_quote =>
            let value_start := abs_launch_pos + 15 + first_quote + 1
            match findSub (content.drop value_start) [dq] with
            | none => .error "Invalid LaunchOptions format"
            | some end_quote =>
              let existing_options := (content.drop value_start).take end_quote
              .ok (content.take value_start ++ new_options existing_options
                    ++ content.drop (value_start + end_quote),
                  "Launch options configured successfully")
        | none =>
          .ok (content.take section_start ++ new_line ++ content.drop section_start,
              "Launch options configured successfully")

/-- The file content after running `configure_launch_options`: the written
content on `Ok`, the unchanged input on `Err` (the Rust code only reaches
`fs::write` on the success path). -/
def applyConfigure (content appId : List Char) : List Char :=
  match configure_launch_options content appId with
  | .ok (c, _) => c
  | .error _ => content

/-! ### Template decomposition of a well-formed app section

`vdfA pre A mid gap sep v rest` is a file content whose app section for id
`A` carries an existing `LaunchOptions` value `v`: everything before the
quoted app-id token is `pre`, `mid` sits between the token and its opening
brace, `gap` between the brace and the quoted key, `sep` between the key and
the opening quote of the value. -/

def vdfPrefix (pre A mid gap sep : List Char) : List Char :=
  pre ++ vdfQuote A ++ mid ++ [lb] ++ gap ++ launchOptionsKey ++ sep ++ [dq]

def vdfA (pre A mid gap sep v rest : List Char) : List Char :=
  vdfPrefix pre A mid gap sep ++ v ++ [dq] ++ rest

/-- Index of the quoted app-id token in `vdfA`/`vdfB`. -/
def appPosT (pre : List Char) : Nat := pre.length

/-- Index one past the opening brace in `vdfA`/`vdfB` (the installer's
`section_start`). -/
def sectionStartT (pre A mid : List Char) : Nat :=
  pre.length + (vdfQuote A).length + mid.length + 1

/-- Index of the quoted `LaunchOptions` key in `vdfA`. -/
def keyPosT (pre A mid gap : List Char) : Nat :=
  sectionStartT pre A mid + gap.length

/-- Index of the first byte of the `LaunchOptions` value in `vdfA`. -/
def valueStartT (pre A mid gap sep : List Char) : Nat :=
  keyPosT pre A mid gap + 15 + sep.length + 1

/-- A file content whose app section for id `A` has no `LaunchOptions` key:
`rest` is everything after the opening brace. -/
def vdfB (pre A mid rest : List Char) : List Char :=
  pre ++ vdfQuote A ++ mid ++ [lb] ++ rest

/-! ### Byte-accurate model of `has_protonhax_configured` (for claim C10)

The Rust function slices `&content[app_pos .. min(app_pos + 500, len)]` with
byte indices into a UTF-8 `str`; this panics when `min(app_pos + 500, len)`
is not a character boundary.  `has_protonhax_configured_utf8` tracks those
byte offsets over the character list and returns `none` exactly when the
slice start or end would fall inside a multi-byte character (every other
slice in the function starts at a pattern occurrence or an ASCII offset past
one, which is always a boundary). -/

/-- Number of bytes of the UTF-8 encoding of `c` (Rust `char::len_utf8`). -/
def utf8Size (c : Char) : Nat :=
  if c.toNat < 128 then 1 else if c.toNat < 2048 then 2
  else if c.toNat < 65536 then 3 else 4

/-- Byte length of the UTF-8 encoding of `l` (Rust `str::len`). -/
def utf8Len (l : List Char) : Nat := (l.map utf8Size).sum

/-- The character index at byte offset `b` of `l`, or `none` when `b` is not
a character boundary (where a Rust byte slice would panic). -/
def boundaryIdx : List Char → Nat → Option Nat
  | _, 0 => some 0
  | [], _ + 1 => none
  | c :: t, b + 1 =>
    if utf8Size c ≤ b + 1 then (boundaryIdx t (b + 1 - utf8Size c)).map (· + 1)
    else none

/-- The checker with Rust's byte-indexed window slice made
explicit: `none` models the panic on a non-boundary slice, `some b` the
normal return `b`. -/
def has_protonhax_configured_utf8 (content appId : List Char) : Option Bool :=
  match findSub content (vdfQuote appId) with
  | none => some false
  | some app_pos =>
    let appB := utf8Len (content.take app_pos)
    let cutB := min (appB + 500) (utf8Len content)
    match boundaryIdx content cutB with
    | none => none
    | some m => some (checkWindow ((content.drop app_pos).take (m - app_pos)))

/-! ### Model of the Steam-path locator (claim C8)

`find_steam_userdata_path` (lines 63-84) and `get_localconfig_path` (lines
87-95) only interact with the filesystem through `SteamDir::locate`,
`Path::exists`, `fs::read_dir`, and `Path::is_dir`; `SteamFS` abstracts
those.  Paths are segment lists; `readDir` returns the entries that
`entries.flatten()` yields (per-entry errors are skipped by the source), with
`none` for a failing `read_dir`; each entry carries its file name and whether
it is a directory. -/

structure DirEntry where
  name : String
  isDir : Bool

structure SteamFS where
  steamRoot : Option (List String)
  pathExists : List String → Bool
  readDir : List String → Option (List DirEntry)

/-- Lines 63-84 of `main.rs`: locate `<steamRoot>/userdata/<uid>` for the
first directory entry of `userdata` whose name is all ASCII digits. -/
def find_steam_userdata_path (fs : SteamFS) : Option (List String) :=
  match fs.steamRoot with
  | none => none
  | some root =>
    if fs.pathExists (root ++ ["userdata"]) then
      match fs.readDir (root ++ ["userdata"]) with
      | none => none
      | some entries =>
        match entries.find? (fun e => e.isDir && e.name.toList.all Char.isDigit) with
        | none => none
        | some e => some (root ++ ["userdata"] ++ [e.name])
    else none

/-- Lines 87-95 of `main.rs`: append `config/localconfig.vdf` and require it
to exist. -/
def get_localconfig_path (fs : SteamFS) : Option (List String) :=
  match find_steam_userdata_path fs with
  | none => none
  | some userdata =>
    if fs.pathExists (userdata ++ ["config", "localconfig.vdf"])
    then some (userdata ++ ["config", "localconfig.vdf"]) else none

/-! ### Model of the launch closure (claim C9)

The synchronous prefix of the `on_run_protonhax` closure (lines 441-509).
Side effects are recorded as an `Effect` trace; the spawned hotkey worker is
a single `spawnKeyWorker` event (its interior runs on another thread).  The
returned `List Char` is the `localconfig.vdf` content after the closure, via
`applyConfigure`. -/

structure GameConfig where
  exe1_path : String
  exe2_path : String

inductive Effect where
  | println (msg : String)
  | playAudio (clip : String)
  | spawn (cmd : String) (args : List String)
  | spawnKeyWorker (appId exe1 exe2 : String)
deriving DecidableEq

/-- Lines 445-453: the exe paths for `app_id` from the config map, or empty
strings when the game has no entry. -/
def resolved_exes (game_configs : List (String × GameConfig)) (app_id : String) :
    String × String :=
  match game_configs.find? (fun p => p.1 == app_id) with
  | some p => (p.2.exe1_path, p.2.exe2_path)
  | none => ("", "")

/-- Lines 441-509 of `main.rs` (synchronous part of the launch closure). -/
def on_run_protonhax (game_configs : List (String × GameConfig))
    (auto_configure : Bool) (content : List Char) (app_id : String) :
    List Effect × List Char :=
  let exes := resolved_exes game_configs app_id
  bif exes.1.isEmpty then ([Effect.println "No executable selected!"], content)
  else
    let step :=
      bif auto_configure then
        match configure_launch_options content app_id.toList with
        | .ok (c, msg) => ([Effect.println msg], c)
        | .error e =>
          ([Effect.println ("Warning: Could not configure launch options: " ++ e)], content)
      else ([], content)
    (step.1 ++ [Effect.playAudio "LaunchGame",
      Effect.println ("Launching Steam Game " ++ app_id ++ "..."),
      Effect.spawn "steam" ["steam://run/" ++ app_id],
      Effect.spawnKeyWorker app_id exes.1 exes.2], step.2)

/-! ### Concrete contents used by counterexamples and witnesses -/

/-- A well-formed app section for id `1` whose opening brace sits 601 bytes
after the app-id token: the installer's window (anchored past the brace)
sees the `LaunchOptions` key, the checker's window (anchored at the token)
does not. -/
def ceMisaligned : List Char :=
  "\"1\"".toList ++ List.replicate 600 'a'
    ++ "\n\x7b\n\t\"LaunchOptions\"\t\t\"x\"\n\x7d".toList

/-- An app section for id `9` whose existing launch options already contain
`%COMMAND%`. -/
def ceCmdTwice : List Char :=
  "\"9\"\n\x7b\n\t\"LaunchOptions\"\t\t\"%COMMAND%\"\n\x7d".toList

/-- A content with a `protonhax`-bearing `LaunchOptions` pair between the
app-id token for `5` and the opening brace, and no key after the brace. -/
def ceEarlyKey : List Char :=
  "\"5\" \"LaunchOptions\"\t\"protonhax x\"\n\x7b\n\x7d".toList

/-- A content whose byte 500 (counted from the app-id token at position 0)
falls inside the two-byte character `¢`. -/
def cePanic : List Char :=
  "\"7\"".toList ++ List.replicate 496 'a' ++ [Char.ofNat 162, 'a']

/-- Template pieces of a small well-formed app section, used to instantiate
the template theorems on a concrete file. -/
def wPre : List Char := []

def wA : List Char := "440".toList

def wMid : List Char := "\n\t".toList

def wGap : List Char := "\n\t\t".toList

def wSep : List Char := "\t\t".toList

def wS : List Char := "-fullscreen".toList

def wRest : List Char := "\n\x7d".toList

/-! ### Occurrence toolkit for `findSub` -/

theorem bool_eq_iff {a b : Bool} (h : a = true ↔ b = true) : a = b := by
  cases a <;> cases b <;> simp_all

theorem occursAt_iff {l pat : List Char} {j : Nat} :
    occursAt l pat j = true ↔ pat <+: l.drop j := by
  simp [occursAt]

theorem isPrefixOf_eq_true_iff {l1 l2 : List Char} :
    l1.isPrefixOf l2 = true ↔ l1 <+: l2 := List.isPrefixOf_iff_prefix

theorem occursAt_false_iff {l pat : List Char} {j : Nat} :
    occursAt l pat j = false ↔ ¬ pat <+: l.drop j := by
  rw [← occursAt_iff]
  cases occursAt l pat j <;> simp

theorem prefix_append_iff_of_le {pat x b : List Char} (h : pat.length ≤ x.length) :
    pat <+: x ++ b ↔ pat <+: x := by
  constructor
  · intro hp
    have h2 := List.prefix_iff_eq_take.mp hp
    rw [List.take_append_of_le_length h] at h2
    exact List.prefix_iff_eq_take.mpr h2
  · intro hp
    exact hp.trans (List.prefix_append x b)

theorem prefix_take_iff_of_le {pat x : List Char} {m : Nat} (h : pat.length ≤ m) :
    pat <+: x.take m ↔ pat <+: x := by
  constructor
  · intro hp
    exact hp.trans ( List.take_prefix m x)
  · intro hp
    rw [List.prefix_iff_eq_take] at hp ⊢
    rw [List.take_take, Nat.min_eq_left h] at *
    exact hp

theorem occursAt_append_inner {a b pat : List Char} {j : Nat}
    (h : j + pat.length ≤ a.length) :
    occursAt (a ++ b) pat j = occursAt a pat j := by
  apply bool_eq_iff
  rw [occursAt_iff, occursAt_iff,
    List.drop_append_of_le_length (by omega)]
  exact prefix_append_iff_of_le (by simp; omega)

theorem occursAt_shift {a b pat : List Char} {j : Nat} :
    occursAt (a ++ b) pat (a.length + j) = occursAt b pat j := by
  apply bool_eq_iff
  rw [occursAt_iff, occursAt_iff, List.drop_append]

theorem occursAt_drop_eq {l pat : List Char} {m j : Nat} :
    occursAt (l.drop m) pat j = occursAt l pat (m + j) := by
  apply bool_eq_iff
  rw [occursAt_iff, occursAt_iff, List.drop_drop]

theorem occursAt_take_eq {l pat : List Char} {n j : Nat}
    (h : j + pat.length ≤ n) :
    occursAt (l.take n) pat j = occursAt l pat j := by
  apply bool_eq_iff
  rw [occursAt_iff, occursAt_iff, List.drop_take]
  exact prefix_take_iff_of_le (by omega)

theorem occursAt_take_mono {l pat : List Char} {n j : Nat}
    (h : occursAt (l.take n) pat j = true) : occursAt l pat j = true := by
  rw [occursAt_iff] at h ⊢
  rw [List.drop_take] at h
  exact h.trans ( List.take_prefix _ _)

theorem occursAt_singleton {m : List Char} {c : Char} {j : Nat} :
    occursAt m [c] j = true ↔ m[j]? = some c := by
  rw [occursAt_iff, ← List.head?_drop]
  cases hd : m.drop j with
  | nil => simp
  | cons a t => simp [List.cons_prefix_cons, eq_comm]

theorem occursAt_length {l pat : List Char} {j : Nat}
    (hpat : pat ≠ []) (h : occursAt l pat j = true) :
    j + pat.length ≤ l.length := by
  rw [occursAt_iff] at h
  have hlen := h.length_le
  rw [List.length_drop] at hlen
  rcases le_or_lt j l.length with hj | hj
  · omega
  · exfalso
    rw [List.drop_eq_nil_of_le (Nat.le_of_lt hj)] at h
    exact hpat (List.prefix_nil.mp h)

theorem occursAt_zero {l pat : List Char} :
    occursAt l pat 0 = pat.isPrefixOf l := by
  simp [occursAt]

theorem occursAt_cons_succ {c : Char} {t pat : List Char} {j : Nat} :
    occursAt (c :: t) pat (j + 1) = occursAt t pat j := rfl

theorem findSub_eq_some_iff {l pat : List Char} {k : Nat} :
    findSub l pat = some k ↔
      occursAt l pat k = true ∧ ∀ j, j < k → occursAt l pat j = false := by
  induction l generalizing k with
  | nil =>
    cases hp : pat.isPrefixOf ([] : List Char) with
    | true =>
      simp only [findSub, hp, cond_true, Option.some.injEq]
      constructor
      · rintro rfl
        refine ⟨by simpa [occursAt] using hp, by omega⟩
      · rintro ⟨-, hmin⟩
        by_contra hk
        have := hmin 0 (by omega)
        rw [occursAt_zero, hp] at this
        cases this
    | false =>
      simp only [findSub, hp, cond_false]
      constructor
      · rintro ⟨⟩
      · rintro ⟨hocc, -⟩
        simp [occursAt] at hocc
        subst hocc
        simp at hp
  | cons c t ih =>
    cases hp : pat.isPrefixOf (c :: t) with
    | true =>
      simp only [findSub, hp, cond_true, Option.some.injEq]
      constructor
      · rintro rfl
        refine ⟨by simpa [occursAt] using hp, by omega⟩
      · rintro ⟨-, hmin⟩
        by_contra hk
        have := hmin 0 (by omega)
        rw [occursAt_zero, hp] at this
        cases this
    | false =>
      simp only [findSub, hp, cond_false, Option.map_eq_some']
      constructor
      · rintro ⟨k', hk', rfl⟩
        obtain ⟨hocc, hmin⟩ := ih.mp hk'
        refine ⟨hocc, ?_⟩
        intro j hj
        cases j with
        | zero => rw [occursAt_zero, hp]
        | succ j' => exact hmin j' (by omega)
      · rintro ⟨hocc, hmin⟩
        cases k with
        | zero =>
          rw [occursAt_zero, hp] at hocc
          cases hocc
        | succ k' =>
          refine ⟨k', ih.mpr ⟨hocc, ?_⟩, rfl⟩
          intro j hj
          exact hmin (j + 1) (by omega)

theorem findSub_eq_none_iff {l pat : List Char} :
    findSub l pat = none ↔ ∀ j, occursAt l pat j = false := by
  induction l with
  | nil =>
    cases hp : pat.isPrefixOf ([] : List Char) with
    | true =>
      simp only [findSub, hp, cond_true]
      constructor
      · rintro ⟨⟩
      · intro hall
        have := hall 0
        rw [occursAt_zero, hp] at this
        cases this
    | false =>
      simp only [findSub, hp, cond_false, true_iff]
      intro j
      rw [show occursAt ([] : List Char) pat j = pat.isPrefixOf (List.drop j []) from rfl,
        List.drop_nil, hp]
  | cons c t ih =>
    cases hp : pat.isPrefixOf (c :: t) with
    | true =>
      simp only [findSub, hp, cond_true]
      constructor
      · rintro ⟨⟩
      · intro hall
        have := hall 0
        rw [occursAt_zero, hp] at this
        cases this
    | false =>
      simp only [findSub, hp, cond_false, Option.map_eq_none']
      rw [ih]
      constructor
      · intro hall j
        cases j with
        | zero => rw [occursAt_zero, hp]
        | succ j' => exact hall j'
      · intro hall j
        exact hall (j + 1)

theorem findSub_eq_some {l pat : List Char} {k : Nat}
    (h1 : occursAt l pat k = true) (h2 : ∀ j, j < k → occursAt l pat j = false) :
    findSub l pat = some k :=
  findSub_eq_some_iff.mpr ⟨h1, h2⟩

theorem findSub_occurs {l pat : List Char} {k : Nat}
    (h : findSub l pat = some k) : occursAt l pat k = true :=
  (findSub_eq_some_iff.mp h).1

theorem containsSub_false_iff {l pat : List Char} :
    containsSub l pat = false ↔ ∀ j, occursAt l pat j = false := by
  rw [← findSub_eq_none_iff]
  simp [containsSub, Option.isSome]
  cases findSub l pat <;> simp

theorem containsSub_of_occursAt {l pat : List Char} {j : Nat}
    (h : occursAt l pat j = true) : containsSub l pat = true := by
  by_contra hc
  have := (containsSub_false_iff.mp (by simpa using hc)) j
  rw [h] at this
  cases this

theorem ite_of_false {α : Sort _} {b : Bool} (h : b = false) (x y : α) :
    (if b = true then x else y) = y := by
  subst h
  simp

/-! ### Claim C5: app-id absent means a not-found error and no write -/

/-- C5: for every file content that does not contain the quoted app-id
token, `configure_launch_options` returns the not-found error and the file
content is unchanged (the Rust function returns before reaching
`fs::write`). -/
theorem c5_not_found (content appId : List Char)
    (h : containsSub content (vdfQuote appId) = false) :
    configure_launch_options content appId =
      .error "Game not found in Steam config. Launch the game from Steam at least once first." ∧
    applyConfigure content appId = content := by
  have hfind : findSub content (vdfQuote appId) = none := by
    rw [findSub_eq_none_iff]
    exact containsSub_false_iff.mp h
  have hpx : has_protonhax_configured content appId = false := by
    unfold has_protonhax_configured
    rw [hfind]
  have hcfg : configure_launch_options content appId =
      .error "Game not found in Steam config. Launch the game from Steam at least once first." := by
    unfold configure_launch_options
    rw [ite_of_false hpx, hfind]
  exact ⟨hcfg, by unfold applyConfigure; rw [hcfg]⟩

theorem c5_not_found_witness :
    containsSub "\"Apps\" \"440\" \"612\"".toList (vdfQuote "999999".toList) = false ∧
    (configure_launch_options "\"Apps\" \"440\" \"612\"".toList "999999".toList =
      .error "Game not found in Steam config. Launch the game from Steam at least once first." ∧
    applyConfigure "\"Apps\" \"440\" \"612\"".toList "999999".toList =
      "\"Apps\" \"440\" \"612\"".toList) :=
  ⟨by decide, c5_not_found _ _ (by decide)⟩

/-! ### Claim C9: empty exe1 aborts the launch closure -/

/-- C9: when the resolved first executable path is empty, the launch closure
prints `No executable selected!` and returns at once: the effect trace holds
that single message (no configure, no audio, no spawn, no worker) and the
`localconfig.vdf` content is untouched, whatever `auto_configure` is. -/
theorem c9_no_exe (game_configs : List (String × GameConfig))
    (auto_configure : Bool) (content : List Char) (app_id : String)
    (h : (resolved_exes game_configs app_id).1 = "") :
    on_run_protonhax game_configs auto_configure content app_id =
      ([Effect.println "No executable selected!"], content) := by
  simp only [on_run_protonhax]
  rw [h]
  rfl

theorem c9_no_exe_witness :
    (resolved_exes [("620", ⟨"", "/b.exe"⟩)] "620").1 = "" ∧
    on_run_protonhax [("620", ⟨"", "/b.exe"⟩)] true "\"620\"".toList "620" =
      ([Effect.println "No executable selected!"], "\"620\"".toList) :=
  ⟨by decide, c9_no_exe _ _ _ _ (by decide)⟩

/-! ### Counterexample contents evaluated -/

/-- C1 fails as stated: on `ceMisaligned` the installer performs an edit and
returns ok, yet the checker still reports false, because the rewritten value
lies beyond the checker's 500-byte window anchored at the app-id token. -/
theorem c1_counterexample :
    configure_launch_options ceMisaligned "1".toList =
      .ok (applyConfigure ceMisaligned "1".toList, "Launch options configured successfully") ∧
    applyConfigure ceMisaligned "1".toList ≠ ceMisaligned ∧
    has_protonhax_configured (applyConfigure ceMisaligned "1".toList) "1".toList = false := by
  decide

/-- C2 fails as stated: on `ceMisaligned` both the first and the second
application of the installer succeed with an edit, and the second changes
the bytes again (the wrapper is prepended twice). -/
theorem c2_counterexample :
    (configure_launch_options ceMisaligned "1".toList).toOption.map Prod.snd =
      some "Launch options configured successfully" ∧
    (configure_launch_options (applyConfigure ceMisaligned "1".toList) "1".toList).toOption.map
        Prod.snd = some "Launch options configured successfully" ∧
    applyConfigure (applyConfigure ceMisaligned "1".toList) "1".toList ≠
      applyConfigure ceMisaligned "1".toList := by
  decide

/-- C3 fails as stated: when the existing value already contains
`%COMMAND%`, the installer appends another one, so the final value contains
the token twice. -/
theorem c3_counterexample :
    configure_launch_options ceCmdTwice "9".toList =
      .ok ("\"9\"\n\x7b\n\t\"LaunchOptions\"\t\t\"protonhax init %COMMAND% %COMMAND%\"\n\x7d".toList,
        "Launch options configured successfully") ∧
    countSub "protonhax init %COMMAND% %COMMAND%".toList commandTok = 2 := by
  decide

/-- C7 fails as stated: `ceEarlyKey` satisfies every premise of the claim
(the app-id token occurs, a `{` follows it, and no `LaunchOptions` key occurs
in the 500-byte window after the brace), yet the installer inserts nothing:
a `protonhax`-bearing key between the token and the brace makes the checker
report already-configured, and the file is returned unchanged. -/
theorem c7_counterexample :
    containsSub ceEarlyKey (vdfQuote "5".toList) = true ∧
    findSub (ceEarlyKey.drop 3) [lb] = some 31 ∧
    findSub ((ceEarlyKey.drop 35).take 500) launchOptionsKey = none ∧
    configure_launch_options ceEarlyKey "5".toList =
      .ok (ceEarlyKey, "Launch options already configured") := by
  decide

/-- C10 fails as stated: on `cePanic` the checker's window slice
`&content[app_pos .. min(app_pos + 500, len)]` ends inside a two-byte
character, which in the Rust source is an out-of-boundary byte slice of a
`str` and panics; the byte-faithful model returns `none` there. -/
theorem c10_counterexample :
    has_protonhax_configured_utf8 cePanic "7".toList = none := by
  decide

/-! ### Claim C10: totality of the checker -/

theorem utf8Size_eq_one {c : Char} (h : c.toNat < 128) : utf8Size c = 1 := by
  unfold utf8Size
  rw [if_pos h]

theorem utf8Len_eq_length {l : List Char} (h : ∀ c ∈ l, c.toNat < 128) :
    utf8Len l = l.length := by
  induction l with
  | nil => rfl
  | cons c t ih =>
    have hc : utf8Len (c :: t) = utf8Size c + utf8Len t := by
      simp [utf8Len]
    rw [hc, utf8Size_eq_one (h c (by simp)), ih (fun x hx => h x (by simp [hx]))]
    simp only [List.length_cons]
    omega

theorem boundaryIdx_ascii {l : List Char} (h : ∀ c ∈ l, c.toNat < 128) :
    ∀ b, b ≤ l.length → boundaryIdx l b = some b := by
  induction l with
  | nil =>
    intro b hb
    have hb0 : b = 0 := by simpa using hb
    subst hb0
    rfl
  | cons c t ih =>
    intro b hb
    cases b with
    | zero => rfl
    | succ b2 =>
      have h1 : utf8Size c = 1 := utf8Size_eq_one (h c (by simp))
      unfold boundaryIdx
      rw [h1, if_pos (by omega)]
      have hsub : b2 + 1 - 1 = b2 := by omega
      rw [hsub, ih (fun x hx => h x (by simp [hx])) b2 (by simp at hb; omega)]
      rfl

/-- For ASCII content the byte-faithful model of the checker never panics
and agrees with the byte-level model. -/
theorem hpcu_ascii (content appId : List Char)
    (h : ∀ c ∈ content, c.toNat < 128) :
    has_protonhax_configured_utf8 content appId =
      some (has_protonhax_configured content appId) := by
  cases hf : findSub content (vdfQuote appId) with
  | none =>
    unfold has_protonhax_configured_utf8 has_protonhax_configured
    rw [hf]
  | some app_pos =>
    have hocc := findSub_occurs hf
    have happ_le : app_pos + (vdfQuote appId).length ≤ content.length :=
      occursAt_length (by simp [vdfQuote]) hocc
    have h1 : utf8Len (content.take app_pos) = app_pos := by
      rw [utf8Len_eq_length (fun c hc => h c (List.mem_of_mem_take hc)),
        List.length_take]
      omega
    have h2 : utf8Len content = content.length := utf8Len_eq_length h
    have hlhs : has_protonhax_configured_utf8 content appId =
        match boundaryIdx content
            (min (utf8Len (content.take app_pos) + 500) (utf8Len content)) with
        | none => none
        | some m => some (checkWindow ((content.drop app_pos).take (m - app_pos))) := by
      unfold has_protonhax_configured_utf8
      rw [hf]
    have hrhs : has_protonhax_configured content appId =
        checkWindow ((content.drop app_pos).take 500) := by
      unfold has_protonhax_configured
      rw [hf]
    have hb : boundaryIdx content (min (app_pos + 500) content.length) =
        some (min (app_pos + 500) content.length) :=
      boundaryIdx_ascii h _ (by omega)
    have htake : (content.drop app_pos).take (min (app_pos + 500) content.length - app_pos) =
        (content.drop app_pos).take 500 := by
      rcases le_or_lt (app_pos + 500) content.length with hle | hlt
      · have hmin : min (app_pos + 500) content.length - app_pos = 500 := by omega
        rw [hmin]
      · have hmin : min (app_pos + 500) content.length - app_pos =
            content.length - app_pos := by omega
        rw [hmin, List.take_of_length_le (by rw [List.length_drop]),
          List.take_of_length_le (by rw [List.length_drop]; omega)]
    rw [hlhs, hrhs, h1, h2, hb]
    show some (checkWindow ((content.drop app_pos).take
      (min (app_pos + 500) content.length - app_pos))) = _
    rw [htake]

/-- Inversion of the checker: a `true` answer certifies the whole
well-formed chain — app-id token found, `LaunchOptions` in the window,
opening and closing value quotes in the window, and `protonhax` in the
value.  Contrapositively, every malformed input yields `false`. -/
theorem hpx_true_inversion (content appId : List Char)
    (h : has_protonhax_configured content appId = true) :
    ∃ app_pos launch_pos first_quote end_quote,
      findSub content (vdfQuote appId) = some app_pos ∧
      findSub ((content.drop app_pos).take 500) launchOptionsKey = some launch_pos ∧
      findSub ((((content.drop app_pos).take 500).drop launch_pos).drop 15) [dq] =
        some first_quote ∧
      findSub ((((content.drop app_pos).take 500).drop launch_pos).drop
          (15 + first_quote + 1)) [dq] = some end_quote ∧
      containsSub (((((content.drop app_pos).take 500).drop launch_pos).drop
          (15 + first_quote + 1)).take end_quote) protonhaxTok = true := by
  unfold has_protonhax_configured at h
  split at h
  · simp at h
  · rename_i app_pos hf
    simp only [checkWindow] at h
    split at h
    · simp at h
    · rename_i launch_pos hk
      split at h
      · simp at h
      · rename_i first_quote hq1
        split at h
        · simp at h
        · rename_i end_quote hq2
          exact ⟨app_pos, launch_pos, first_quote, end_quote, hf, hk, hq1, hq2, h⟩

/-- C10 amended: on ASCII content (where every byte offset is a character
boundary) the checker is total and two-valued — the byte-faithful model
returns `some` of the byte-level answer — and it returns `true` only on
fully well-formed input, hence `false` on every malformed one (app-id token
absent, no `LaunchOptions` in the window, missing value quotes in the
window, value truncated by the window).  On non-ASCII content the window
slice can split a character and panic, as the counterexample content shows. -/
theorem c10_amended (content appId : List Char)
    (hascii : ∀ c ∈ content, c.toNat < 128) :
    has_protonhax_configured_utf8 content appId =
      some (has_protonhax_configured content appId) ∧
    (has_protonhax_configured content appId = true →
      ∃ app_pos launch_pos first_quote end_quote,
        findSub content (vdfQuote appId) = some app_pos ∧
        findSub ((content.drop app_pos).take 500) launchOptionsKey = some launch_pos ∧
        findSub ((((content.drop app_pos).take 500).drop launch_pos).drop 15) [dq] =
          some first_quote ∧
        findSub ((((content.drop app_pos).take 500).drop launch_pos).drop
            (15 + first_quote + 1)) [dq] = some end_quote ∧
        containsSub (((((content.drop app_pos).take 500).drop launch_pos).drop
            (15 + first_quote + 1)).take end_quote) protonhaxTok = true) :=
  ⟨hpcu_ascii content appId hascii, hpx_true_inversion content appId⟩

theorem c10_amended_witness :
    (∀ c ∈ "\"440\"\n\x7b\n\t\"LaunchOptions\"\t\t\"protonhax init %COMMAND%\"\n\x7d".toList,
      c.toNat < 128) ∧
    has_protonhax_configured_utf8
        "\"440\"\n\x7b\n\t\"LaunchOptions\"\t\t\"protonhax init %COMMAND%\"\n\x7d".toList
        "440".toList =
      some (has_protonhax_configured
        "\"440\"\n\x7b\n\t\"LaunchOptions\"\t\t\"protonhax init %COMMAND%\"\n\x7d".toList
        "440".toList) :=
  ⟨by decide,
    (c10_amended "\"440\"\n\x7b\n\t\"LaunchOptions\"\t\t\"protonhax init %COMMAND%\"\n\x7d".toList
      "440".toList (by decide)).1⟩

/-! ### Computation of the installer from its search results -/

/-- When the checker reports false and each of the installer's searches
succeeds, the installer rewrites the value span (Case A of the source). -/
theorem configure_caseA_eq (content appId : List Char)
    (app_pos brace_offset launch_pos first_quote end_quote : Nat)
    (h0 : has_protonhax_configured content appId = false)
    (h1 : findSub content (vdfQuote appId) = some app_pos)
    (h2 : findSub (content.drop (app_pos + (vdfQuote appId).length)) [lb] =
      some brace_offset)
    (h3 : findSub ((content.drop
        (app_pos + (vdfQuote appId).length + brace_offset + 1)).take 500)
        launchOptionsKey = some launch_pos)
    (h4 : findSub (content.drop
        (app_pos + (vdfQuote appId).length + brace_offset + 1 + launch_pos + 15)) [dq] =
      some first_quote)
    (h5 : findSub (content.drop
        (app_pos + (vdfQuote appId).length + brace_offset + 1 + launch_pos + 15
          + first_quote + 1)) [dq] = some end_quote) :
    configure_launch_options content appId =
      .ok (content.take (app_pos + (vdfQuote appId).length + brace_offset + 1
            + launch_pos + 15 + first_quote + 1)
          ++ new_options ((content.drop (app_pos + (vdfQuote appId).length
            + brace_offset + 1 + launch_pos + 15 + first_quote + 1)).take end_quote)
          ++ content.drop (app_pos + (vdfQuote appId).length + brace_offset + 1
            + launch_pos + 15 + first_quote + 1 + end_quote),
        "Launch options configured successfully") := by
  simp only [configure_launch_options, ite_of_false h0, h1, h2, h3, h4, h5]

/-- When the checker reports false, the searches up to the window succeed but
no `LaunchOptions` key is in the window, the installer inserts `new_line`
just after the opening brace (Case B of the source). -/
theorem configure_caseB_eq (content appId : List Char)
    (app_pos brace_offset : Nat)
    (h0 : has_protonhax_configured content appId = false)
    (h1 : findSub content (vdfQuote appId) = some app_pos)
    (h2 : findSub (content.drop (app_pos + (vdfQuote appId).length)) [lb] =
      some brace_offset)
    (h3 : findSub ((content.drop
        (app_pos + (vdfQuote appId).length + brace_offset + 1)).take 500)
        launchOptionsKey = none) :
    configure_launch_options content appId =
      .ok (content.take (app_pos + (vdfQuote appId).length + brace_offset + 1)
          ++ new_line
          ++ content.drop (app_pos + (vdfQuote appId).length + brace_offset + 1),
        "Launch options configured successfully") := by
  simp only [configure_launch_options, ite_of_false h0, h1, h2, h3]

/-! ### Claim C6: bytes outside the rewritten value span are preserved -/

/-- C6: for every successful Case A edit (checker false, every search of the
installer succeeding, the value span starting at `value_start`), the output
agrees with the input on every byte before the value span, and the bytes
from the closing quote onward are the unchanged suffix of the input. -/
theorem c6_frame (content appId : List Char)
    (app_pos brace_offset launch_pos first_quote end_quote value_start : Nat)
    (h0 : has_protonhax_configured content appId = false)
    (h1 : findSub content (vdfQuote appId) = some app_pos)
    (h2 : findSub (content.drop (app_pos + (vdfQuote appId).length)) [lb] =
      some brace_offset)
    (h3 : findSub ((content.drop
        (app_pos + (vdfQuote appId).length + brace_offset + 1)).take 500)
        launchOptionsKey = some launch_pos)
    (h4 : findSub (content.drop
        (app_pos + (vdfQuote appId).length + brace_offset + 1 + launch_pos + 15)) [dq] =
      some first_quote)
    (h5 : findSub (content.drop
        (app_pos + (vdfQuote appId).length + brace_offset + 1 + launch_pos + 15
          + first_quote + 1)) [dq] = some end_quote)
    (hvs : value_start = app_pos + (vdfQuote appId).length + brace_offset + 1
      + launch_pos + 15 + first_quote + 1) :
    ∃ c2, configure_launch_options content appId =
        .ok (c2, "Launch options configured successfully") ∧
      c2.take value_start = content.take value_start ∧
      c2.drop (value_start
          + (new_options ((content.drop value_start).take end_quote)).length) =
        content.drop (value_start + end_quote) ∧
      value_start + end_quote + 1 ≤ content.length := by
  subst hvs
  have hlen : end_quote + 1 ≤ content.length
      - (app_pos + (vdfQuote appId).length + brace_offset + 1 + launch_pos + 15
        + first_quote + 1) := by
    have hb := @occursAt_length _ [dq] _ (by simp) (findSub_occurs h5)
    rw [List.length_drop, List.length_singleton] at hb
    omega
  have htake : (content.take (app_pos + (vdfQuote appId).length + brace_offset + 1
      + launch_pos + 15 + first_quote + 1)).length
      = app_pos + (vdfQuote appId).length + brace_offset + 1 + launch_pos + 15
        + first_quote + 1 := by
    rw [List.length_take]
    omega
  refine ⟨_, configure_caseA_eq content appId app_pos brace_offset launch_pos
    first_quote end_quote h0 h1 h2 h3 h4 h5, ?_, ?_, ?_⟩
  · rw [List.append_assoc]
    exact List.take_left' htake
  · rw [List.append_assoc, ← List.append_assoc]
    refine List.drop_left' ?_
    rw [List.length_append, htake]
  · omega

theorem c6_frame_witness :
    has_protonhax_configured "\"440\"\n\x7b\n\t\"LaunchOptions\"\t\t\"-fs\"\n\x7d".toList
        "440".toList = false ∧
    (∃ c2, configure_launch_options "\"440\"\n\x7b\n\t\"LaunchOptions\"\t\t\"-fs\"\n\x7d".toList
        "440".toList = .ok (c2, "Launch options configured successfully") ∧
      c2.take 27 = ("\"440\"\n\x7b\n\t\"LaunchOptions\"\t\t\"-fs\"\n\x7d".toList).take 27 ∧
      c2.drop (27 + (new_options ((("\"440\"\n\x7b\n\t\"LaunchOptions\"\t\t\"-fs\"\n\x7d".toList).drop
          27).take 3)).length) =
        ("\"440\"\n\x7b\n\t\"LaunchOptions\"\t\t\"-fs\"\n\x7d".toList).drop (27 + 3) ∧
      27 + 3 + 1 ≤ ("\"440\"\n\x7b\n\t\"LaunchOptions\"\t\t\"-fs\"\n\x7d".toList).length) :=
  ⟨by decide,
    c6_frame "\"440\"\n\x7b\n\t\"LaunchOptions\"\t\t\"-fs\"\n\x7d".toList "440".toList
      0 1 2 2 3 27 (by decide) (by decide) (by decide) (by decide) (by decide)
      (by decide) (by decide)⟩

/-! ### Claim C7 (amended): insertion when the key is absent from the window -/

/-- C7 amended: when the app-id token is present, a `{` follows it, no
`LaunchOptions` key occurs in the 500-byte window after the brace, and in
addition the checker does not already report the wrapper configured, the
installer inserts at the position just after the brace exactly the literal
newline, seven tabs, quoted `LaunchOptions` key, two tabs, quoted
`protonhax init %COMMAND%` value, preserving all other bytes. -/
theorem c7_amended (content appId : List Char) (app_pos brace_offset : Nat)
    (h0 : has_protonhax_configured content appId = false)
    (h1 : findSub content (vdfQuote appId) = some app_pos)
    (h2 : findSub (content.drop (app_pos + (vdfQuote appId).length)) [lb] =
      some brace_offset)
    (h3 : findSub ((content.drop
        (app_pos + (vdfQuote appId).length + brace_offset + 1)).take 500)
        launchOptionsKey = none) :
    configure_launch_options content appId =
      .ok (content.take (app_pos + (vdfQuote appId).length + brace_offset + 1)
          ++ "\n\t\t\t\t\t\t\t\"LaunchOptions\"\t\t\"protonhax init %COMMAND%\"".toList
          ++ content.drop (app_pos + (vdfQuote appId).length + brace_offset + 1),
        "Launch options configured successfully") := by
  have hnl : new_line =
      "\n\t\t\t\t\t\t\t\"LaunchOptions\"\t\t\"protonhax init %COMMAND%\"".toList := by
    decide
  rw [← hnl]
  exact configure_caseB_eq content appId app_pos brace_offset h0 h1 h2 h3

theorem c7_amended_witness :
    has_protonhax_configured "\"620\"\n\x7b\n\x7d".toList "620".toList = false ∧
    configure_launch_options "\"620\"\n\x7b\n\x7d".toList "620".toList =
      .ok (("\"620\"\n\x7b\n\x7d".toList).take 7
          ++ "\n\t\t\t\t\t\t\t\"LaunchOptions\"\t\t\"protonhax init %COMMAND%\"".toList
          ++ ("\"620\"\n\x7b\n\x7d".toList).drop 7,
        "Launch options configured successfully") :=
  ⟨by decide,
    c7_amended "\"620\"\n\x7b\n\x7d".toList "620".toList 0 1 (by decide) (by decide)
      (by decide) (by decide)⟩

/-! ### Structure of `vdfA` around each search position -/

theorem ite_of_true {α : Sort _} {b : Bool} (h : b = true) (x y : α) :
    (if b = true then x else y) = x := by
  subst h
  simp

theorem bool_false_of_not {b : Bool} (h : ¬ b = true) : b = false := by
  cases b
  · rfl
  · exact absurd rfl h

theorem launchOptionsKey_length : launchOptionsKey.length = 15 := by decide

theorem vdfQuote_length {A : List Char} : (vdfQuote A).length = A.length + 2 := by
  simp [vdfQuote]

theorem vdfQuote_ne_nil {A : List Char} : vdfQuote A ≠ [] := by
  simp [vdfQuote]

theorem vdfA_flat {pre A mid gap sep v rest : List Char} :
    vdfA pre A mid gap sep v rest =
      pre ++ (vdfQuote A ++ (mid ++ ([lb] ++ (gap ++ (launchOptionsKey
        ++ (sep ++ ([dq] ++ (v ++ ([dq] ++ rest))))))))) := by
  simp [vdfA, vdfPrefix, List.append_assoc]

theorem vdfA_drop_tok {pre A mid gap sep v rest : List Char} :
    (vdfA pre A mid gap sep v rest).drop (pre.length + (vdfQuote A).length) =
      mid ++ ([lb] ++ (gap ++ (launchOptionsKey
        ++ (sep ++ ([dq] ++ (v ++ ([dq] ++ rest))))))) := by
  have hsplit : vdfA pre A mid gap sep v rest =
      (pre ++ vdfQuote A) ++ (mid ++ ([lb] ++ (gap ++ (launchOptionsKey
        ++ (sep ++ ([dq] ++ (v ++ ([dq] ++ rest)))))))) := by
    simp [vdfA, vdfPrefix, List.append_assoc]
  rw [hsplit]
  exact List.drop_left' (by simp)

theorem vdfA_drop_ss {pre A mid gap sep v rest : List Char} :
    (vdfA pre A mid gap sep v rest).drop
        (pre.length + (vdfQuote A).length + mid.length + 1) =
      gap ++ (launchOptionsKey ++ (sep ++ ([dq] ++ (v ++ ([dq] ++ rest))))) := by
  have hsplit : vdfA pre A mid gap sep v rest =
      (pre ++ vdfQuote A ++ mid ++ [lb]) ++ (gap ++ (launchOptionsKey
        ++ (sep ++ ([dq] ++ (v ++ ([dq] ++ rest)))))) := by
    simp [vdfA, vdfPrefix, List.append_assoc]
  rw [hsplit]
  refine List.drop_left' ?_
  simp
  omega

theorem vdfA_drop_kp {pre A mid gap sep v rest : List Char} :
    (vdfA pre A mid gap sep v rest).drop
        (pre.length + (vdfQuote A).length + mid.length + 1 + gap.length) =
      launchOptionsKey ++ (sep ++ ([dq] ++ (v ++ ([dq] ++ rest)))) := by
  have hsplit : vdfA pre A mid gap sep v rest =
      (pre ++ vdfQuote A ++ mid ++ [lb] ++ gap) ++ (launchOptionsKey
        ++ (sep ++ ([dq] ++ (v ++ ([dq] ++ rest))))) := by
    simp [vdfA, vdfPrefix, List.append_assoc]
  rw [hsplit]
  refine List.drop_left' ?_
  simp
  omega

theorem vdfA_drop_kp15 {pre A mid gap sep v rest : List Char} :
    (vdfA pre A mid gap sep v rest).drop
        (pre.length + (vdfQuote A).length + mid.length + 1 + gap.length + 15) =
      sep ++ ([dq] ++ (v ++ ([dq] ++ rest))) := by
  have hsplit : vdfA pre A mid gap sep v rest =
      (pre ++ vdfQuote A ++ mid ++ [lb] ++ gap ++ launchOptionsKey)
        ++ (sep ++ ([dq] ++ (v ++ ([dq] ++ rest)))) := by
    simp [vdfA, vdfPrefix, List.append_assoc]
  rw [hsplit]
  refine List.drop_left' ?_
  simp [launchOptionsKey_length]
  omega

theorem vdfA_drop_vs {pre A mid gap sep v rest : List Char} :
    (vdfA pre A mid gap sep v rest).drop
        (pre.length + (vdfQuote A).length + mid.length + 1 + gap.length + 15
          + sep.length + 1) =
      v ++ ([dq] ++ rest) := by
  have hsplit : vdfA pre A mid gap sep v rest =
      vdfPrefix pre A mid gap sep ++ (v ++ ([dq] ++ rest)) := by
    simp [vdfA, List.append_assoc]
  rw [hsplit]
  refine List.drop_left' ?_
  simp [vdfPrefix, launchOptionsKey_length]
  omega

theorem vdfA_take_vs {pre A mid gap sep v rest : List Char} :
    (vdfA pre A mid gap sep v rest).take
        (pre.length + (vdfQuote A).length + mid.length + 1 + gap.length + 15
          + sep.length + 1) =
      vdfPrefix pre A mid gap sep := by
  have hsplit : vdfA pre A mid gap sep v rest =
      vdfPrefix pre A mid gap sep ++ (v ++ ([dq] ++ rest)) := by
    simp [vdfA, List.append_assoc]
  rw [hsplit]
  refine List.take_left' ?_
  simp [vdfPrefix, launchOptionsKey_length]
  omega

theorem vdfA_drop_vend {pre A mid gap sep v rest : List Char} :
    (vdfA pre A mid gap sep v rest).drop
        (pre.length + (vdfQuote A).length + mid.length + 1 + gap.length + 15
          + sep.length + 1 + v.length) =
      [dq] ++ rest := by
  have hsplit : vdfA pre A mid gap sep v rest =
      (vdfPrefix pre A mid gap sep ++ v) ++ ([dq] ++ rest) := by
    simp [vdfA, List.append_assoc]
  rw [hsplit]
  refine List.drop_left' ?_
  simp [vdfPrefix, launchOptionsKey_length]
  omega

theorem vdfPrefix_length {pre A mid gap sep : List Char} :
    (vdfPrefix pre A mid gap sep).length =
      pre.length + (vdfQuote A).length + mid.length + 1 + gap.length + 15
        + sep.length + 1 := by
  simp [vdfPrefix, launchOptionsKey_length, vdfQuote_length]
  omega

theorem occursAt_vdfA_front {pre A mid gap sep v rest pat : List Char} {j : Nat}
    (h : j + pat.length ≤ (vdfPrefix pre A mid gap sep).length) :
    occursAt (vdfA pre A mid gap sep v rest) pat j =
      occursAt (vdfPrefix pre A mid gap sep) pat j := by
  have hsplit : vdfA pre A mid gap sep v rest =
      vdfPrefix pre A mid gap sep ++ (v ++ ([dq] ++ rest)) := by
    simp [vdfA, List.append_assoc]
  rw [hsplit, occursAt_append_inner h]

/-! ### The installer's search results on `vdfA` -/

theorem findSub_vdfA_tok (pre A mid gap sep v rest : List Char)
    (H1 : ∀ j, j < pre.length →
      occursAt (vdfPrefix pre A mid gap sep) (vdfQuote A) j = false) :
    findSub (vdfA pre A mid gap sep v rest) (vdfQuote A) = some pre.length := by
  apply findSub_eq_some
  · rw [vdfA_flat]
    have hsh := @occursAt_shift pre (vdfQuote A ++ (mid ++ ([lb] ++ (gap
      ++ (launchOptionsKey ++ (sep ++ ([dq] ++ (v ++ ([dq] ++ rest)))))))))
      (vdfQuote A) 0
    rw [Nat.add_zero] at hsh
    rw [hsh, occursAt_zero]
    exact isPrefixOf_eq_true_iff.mpr (List.prefix_append _ _)
  · intro j hj
    rw [occursAt_vdfA_front (by rw [vdfPrefix_length]; omega)]
    exact H1 j hj

theorem findSub_vdfA_brace (pre A mid gap sep v rest : List Char)
    (H2 : lb ∉ mid) :
    findSub ((vdfA pre A mid gap sep v rest).drop
        (pre.length + (vdfQuote A).length)) [lb] = some mid.length := by
  rw [vdfA_drop_tok]
  apply findSub_eq_some
  · have hsh := @occursAt_shift mid ([lb] ++ (gap ++ (launchOptionsKey
      ++ (sep ++ ([dq] ++ (v ++ ([dq] ++ rest))))))) [lb] 0
    rw [Nat.add_zero] at hsh
    rw [hsh, occursAt_zero]
    exact isPrefixOf_eq_true_iff.mpr (List.prefix_append _ _)
  · intro j hj
    apply bool_false_of_not
    intro hocc
    rw [occursAt_singleton, List.getElem?_append_left hj] at hocc
    exact H2 (List.getElem?_mem hocc)

theorem findSub_vdfA_key (pre A mid gap sep v rest : List Char)
    (H3 : ∀ j, j < pre.length + (vdfQuote A).length + mid.length + 1 + gap.length →
      pre.length ≤ j →
      occursAt (vdfPrefix pre A mid gap sep) launchOptionsKey j = false)
    (H6 : gap.length + 15 ≤ 500) :
    findSub (((vdfA pre A mid gap sep v rest).drop
        (pre.length + (vdfQuote A).length + mid.length + 1)).take 500)
        launchOptionsKey = some gap.length := by
  rw [vdfA_drop_ss]
  apply findSub_eq_some
  · rw [occursAt_take_eq (by rw [launchOptionsKey_length]; omega)]
    have hsh := @occursAt_shift gap (launchOptionsKey ++ (sep ++ ([dq]
      ++ (v ++ ([dq] ++ rest))))) launchOptionsKey 0
    rw [Nat.add_zero] at hsh
    rw [hsh, occursAt_zero]
    exact isPrefixOf_eq_true_iff.mpr (List.prefix_append _ _)
  · intro j hj
    apply bool_false_of_not
    intro hocc
    have hocc2 := occursAt_take_mono hocc
    rw [← @vdfA_drop_ss pre A mid gap sep v rest] at hocc2
    rw [occursAt_drop_eq] at hocc2
    rw [occursAt_vdfA_front
      (by rw [vdfPrefix_length, launchOptionsKey_length]; omega)] at hocc2
    rw [H3 _ (by omega) (by omega)] at hocc2
    cases hocc2

theorem findSub_vdfA_q1 (pre A mid gap sep v rest : List Char)
    (H4 : dq ∉ sep) :
    findSub ((vdfA pre A mid gap sep v rest).drop
        (pre.length + (vdfQuote A).length + mid.length + 1 + gap.length + 15))
        [dq] = some sep.length := by
  rw [vdfA_drop_kp15]
  apply findSub_eq_some
  · rw [occursAt_singleton, List.getElem?_append_right (Nat.le_refl _)]
    simp
  · intro j hj
    apply bool_false_of_not
    intro hocc
    rw [occursAt_singleton, List.getElem?_append_left hj] at hocc
    exact H4 (List.getElem?_mem hocc)

theorem findSub_vdfA_q2 (pre A mid gap sep v rest : List Char)
    (H5 : dq ∉ v) :
    findSub ((vdfA pre A mid gap sep v rest).drop
        (pre.length + (vdfQuote A).length + mid.length + 1 + gap.length + 15
          + sep.length + 1)) [dq] = some v.length := by
  rw [vdfA_drop_vs]
  apply findSub_eq_some
  · rw [occursAt_singleton, List.getElem?_append_right (Nat.le_refl _)]
    simp
  · intro j hj
    apply bool_false_of_not
    intro hocc
    rw [occursAt_singleton, List.getElem?_append_left hj] at hocc
    exact H5 (List.getElem?_mem hocc)

/-- Master lemma for Case A on the template: when the checker reports false,
the installer rewrites the `LaunchOptions` value from `v` to
`new_options v` and leaves every other byte in place. -/
theorem install_vdfA (pre A mid gap sep v rest : List Char)
    (H0 : has_protonhax_configured (vdfA pre A mid gap sep v rest) A = false)
    (H1 : ∀ j, j < pre.length →
      occursAt (vdfPrefix pre A mid gap sep) (vdfQuote A) j = false)
    (H2 : lb ∉ mid)
    (H3 : ∀ j, j < pre.length + (vdfQuote A).length + mid.length + 1 + gap.length →
      pre.length ≤ j →
      occursAt (vdfPrefix pre A mid gap sep) launchOptionsKey j = false)
    (H4 : dq ∉ sep) (H5 : dq ∉ v) (H6 : gap.length + 15 ≤ 500) :
    configure_launch_options (vdfA pre A mid gap sep v rest) A =
      .ok (vdfA pre A mid gap sep (new_options v) rest,
        "Launch options configured successfully") := by
  have hc := configure_caseA_eq (vdfA pre A mid gap sep v rest) A
    pre.length mid.length gap.length sep.length v.length H0
    (findSub_vdfA_tok pre A mid gap sep v rest H1)
    (findSub_vdfA_brace pre A mid gap sep v rest H2)
    (findSub_vdfA_key pre A mid gap sep v rest H3 H6)
    (findSub_vdfA_q1 pre A mid gap sep v rest H4)
    (findSub_vdfA_q2 pre A mid gap sep v rest H5)
  rw [hc, vdfA_take_vs, vdfA_drop_vend, vdfA_drop_vs, List.take_left]
  simp [vdfA, List.append_assoc]

/-! ### What the checker computes on the template -/

theorem occursAt_at_append {a x pat : List Char} :
    occursAt (a ++ (pat ++ x)) pat a.length = true := by
  have hsh := @occursAt_shift a (pat ++ x) pat 0
  rw [Nat.add_zero] at hsh
  rw [hsh, occursAt_zero]
  exact isPrefixOf_eq_true_iff.mpr (List.prefix_append _ _)

theorem findSub_dq_trunc_some {x Y : List Char} {M : Nat}
    (hx : dq ∉ x) (hM : x.length + 1 ≤ M) :
    findSub ((x ++ ([dq] ++ Y)).take M) [dq] = some x.length := by
  apply findSub_eq_some
  · rw [occursAt_take_eq (by simp; omega)]
    exact occursAt_at_append
  · intro j hj
    apply bool_false_of_not
    intro hocc
    have h2 := occursAt_take_mono hocc
    rw [occursAt_singleton, List.getElem?_append_left hj] at h2
    exact hx (List.getElem?_mem h2)

theorem findSub_dq_trunc_none {x Y : List Char} {M : Nat}
    (hx : dq ∉ x) (hM : M ≤ x.length) :
    findSub ((x ++ Y).take M) [dq] = none := by
  rw [List.take_append_of_le_length hM, findSub_eq_none_iff]
  intro j
  apply bool_false_of_not
  intro hocc
  rw [occursAt_singleton, List.getElem?_take] at hocc
  by_cases hj : j < M
  · rw [if_pos hj] at hocc
    exact hx (List.getElem?_mem hocc)
  · rw [if_neg hj] at hocc
    cases hocc

/-- The checker's verdict on a window holding `g2`, the key, `sep`, and the
value `v`: true exactly when the whole value span (through its closing
quote) fits in the 500-byte window and `v` contains `protonhax`. -/
theorem checkWindow_shape (g2 sep v r2 : List Char)
    (Hg : ∀ j, j < g2.length →
      occursAt (g2 ++ (launchOptionsKey ++ (sep ++ ([dq] ++ (v ++ ([dq] ++ r2))))))
        launchOptionsKey j = false)
    (H4 : dq ∉ sep) (H5 : dq ∉ v) :
    checkWindow ((g2 ++ (launchOptionsKey ++ (sep ++ ([dq] ++ (v ++ ([dq] ++ r2)))))).take 500) =
      (decide (g2.length + 15 + sep.length + 1 + v.length + 1 ≤ 500)
        && containsSub v protonhaxTok) := by
  by_cases hvis : g2.length + 15 ≤ 500
  · have k1 : findSub ((g2 ++ (launchOptionsKey ++ (sep ++ ([dq] ++ (v ++ ([dq]
        ++ r2)))))).take 500) launchOptionsKey = some g2.length := by
      apply findSub_eq_some
      · rw [occursAt_take_eq (by rw [launchOptionsKey_length]; omega)]
        exact occursAt_at_append
      · intro j hj
        apply bool_false_of_not
        intro hocc
        have h2 := occursAt_take_mono hocc
        rw [Hg j hj] at h2
        cases h2
    have hAL : ((g2 ++ (launchOptionsKey ++ (sep ++ ([dq] ++ (v ++ ([dq]
        ++ r2)))))).take 500).drop g2.length =
        (launchOptionsKey ++ (sep ++ ([dq] ++ (v ++ ([dq] ++ r2))))).take
          (500 - g2.length) := by
      rw [List.drop_take, List.drop_left]
    have h15 : (((g2 ++ (launchOptionsKey ++ (sep ++ ([dq] ++ (v ++ ([dq]
        ++ r2)))))).take 500).drop g2.length).drop 15 =
        (sep ++ ([dq] ++ (v ++ ([dq] ++ r2)))).take (500 - g2.length - 15) := by
      rw [hAL, List.drop_take, List.drop_left' launchOptionsKey_length]
    by_cases hq1 : sep.length + 1 ≤ 500 - g2.length - 15
    · have q1 : findSub ((((g2 ++ (launchOptionsKey ++ (sep ++ ([dq] ++ (v
          ++ ([dq] ++ r2)))))).take 500).drop g2.length).drop 15) [dq] =
          some sep.length := by
        rw [h15]
        exact findSub_dq_trunc_some H4 hq1
      have hVA : (((g2 ++ (launchOptionsKey ++ (sep ++ ([dq] ++ (v ++ ([dq]
          ++ r2)))))).take 500).drop g2.length).drop (15 + sep.length + 1) =
          (v ++ ([dq] ++ r2)).take (500 - g2.length - (15 + sep.length + 1)) := by
        rw [hAL, List.drop_take]
        have hd : (launchOptionsKey ++ (sep ++ ([dq] ++ (v ++ ([dq] ++ r2))))).drop
            (15 + sep.length + 1) = v ++ ([dq] ++ r2) := by
          have hsplit : launchOptionsKey ++ (sep ++ ([dq] ++ (v ++ ([dq] ++ r2)))) =
              (launchOptionsKey ++ sep ++ [dq]) ++ (v ++ ([dq] ++ r2)) := by
            simp [List.append_assoc]
          rw [hsplit]
          refine List.drop_left' ?_
          simp [launchOptionsKey_length]
          omega
        rw [hd]
      by_cases hq2 : v.length + 1 ≤ 500 - g2.length - (15 + sep.length + 1)
      · have q2 : findSub ((((g2 ++ (launchOptionsKey ++ (sep ++ ([dq] ++ (v
            ++ ([dq] ++ r2)))))).take 500).drop g2.length).drop
            (15 + sep.length + 1)) [dq] = some v.length := by
          rw [hVA]
          exact findSub_dq_trunc_some H5 hq2
        have hval : ((((g2 ++ (launchOptionsKey ++ (sep ++ ([dq] ++ (v ++ ([dq]
            ++ r2)))))).take 500).drop g2.length).drop
            (15 + sep.length + 1)).take v.length = v := by
          rw [hVA, List.take_take, Nat.min_eq_left (by omega)]
          exact List.take_left _ _
        simp only [checkWindow, k1, q1, q2, hval]
        rw [decide_eq_true
          (show g2.length + 15 + sep.length + 1 + v.length + 1 ≤ 500 by omega),
          Bool.true_and]
      · have q2 : findSub ((((g2 ++ (launchOptionsKey ++ (sep ++ ([dq] ++ (v
            ++ ([dq] ++ r2)))))).take 500).drop g2.length).drop
            (15 + sep.length + 1)) [dq] = none := by
          rw [hVA]
          exact findSub_dq_trunc_none H5 (by omega)
        simp only [checkWindow, k1, q1, q2]
        rw [decide_eq_false (by omega), Bool.false_and]
    · have q1 : findSub ((((g2 ++ (launchOptionsKey ++ (sep ++ ([dq] ++ (v
          ++ ([dq] ++ r2)))))).take 500).drop g2.length).drop 15) [dq] = none := by
        rw [h15]
        exact findSub_dq_trunc_none H4 (by omega)
      simp only [checkWindow, k1, q1]
      rw [decide_eq_false (by omega), Bool.false_and]
  · have k1 : findSub ((g2 ++ (launchOptionsKey ++ (sep ++ ([dq] ++ (v ++ ([dq]
        ++ r2)))))).take 500) launchOptionsKey = none := by
      rw [findSub_eq_none_iff]
      intro j
      apply bool_false_of_not
      intro hocc
      have hlen := occursAt_length (by simp [launchOptionsKey]) hocc
      rw [List.length_take, launchOptionsKey_length] at hlen
      have hj : j < g2.length := by omega
      have h2 := occursAt_take_mono hocc
      rw [Hg j hj] at h2
      cases h2
    simp only [checkWindow, k1]
    rw [decide_eq_false (by omega), Bool.false_and]

/-- Master lemma for the checker on the template: it answers true exactly
when the value span lies inside its own window (anchored at the app-id
token) and the value contains `protonhax`. -/
theorem hpx_vdfA (pre A mid gap sep v rest : List Char)
    (H1 : ∀ j, j < pre.length →
      occursAt (vdfPrefix pre A mid gap sep) (vdfQuote A) j = false)
    (H3 : ∀ j, j < pre.length + (vdfQuote A).length + mid.length + 1 + gap.length →
      pre.length ≤ j →
      occursAt (vdfPrefix pre A mid gap sep) launchOptionsKey j = false)
    (H4 : dq ∉ sep) (H5 : dq ∉ v) :
    has_protonhax_configured (vdfA pre A mid gap sep v rest) A =
      (decide ((vdfQuote A).length + mid.length + 1 + gap.length + 15
          + sep.length + 1 + v.length + 1 ≤ 500)
        && containsSub v protonhaxTok) := by
  have e1 := findSub_vdfA_tok pre A mid gap sep v rest H1
  have hstart : has_protonhax_configured (vdfA pre A mid gap sep v rest) A =
      checkWindow (((vdfA pre A mid gap sep v rest).drop pre.length).take 500) := by
    unfold has_protonhax_configured
    rw [e1]
  have hdropapp : (vdfA pre A mid gap sep v rest).drop pre.length =
      (vdfQuote A ++ mid ++ [lb] ++ gap) ++ (launchOptionsKey ++ (sep ++ ([dq]
        ++ (v ++ ([dq] ++ rest))))) := by
    have h1 : (vdfA pre A mid gap sep v rest).drop pre.length =
        vdfQuote A ++ (mid ++ ([lb] ++ (gap ++ (launchOptionsKey ++ (sep ++ ([dq]
          ++ (v ++ ([dq] ++ rest)))))))) := by
      rw [vdfA_flat]
      exact List.drop_left _ _
    rw [h1]
    simp [List.append_assoc]
  have hlen2 : (vdfQuote A ++ mid ++ [lb] ++ gap).length =
      (vdfQuote A).length + mid.length + 1 + gap.length := by
    simp
    omega
  have Hg : ∀ j, j < (vdfQuote A ++ mid ++ [lb] ++ gap).length →
      occursAt ((vdfQuote A ++ mid ++ [lb] ++ gap) ++ (launchOptionsKey
        ++ (sep ++ ([dq] ++ (v ++ ([dq] ++ rest)))))) launchOptionsKey j = false := by
    intro j hj
    rw [hlen2] at hj
    rw [← hdropapp, occursAt_drop_eq]
    rw [occursAt_vdfA_front (by rw [vdfPrefix_length, launchOptionsKey_length]; omega)]
    exact H3 _ (by omega) (by omega)
  rw [hstart, hdropapp, checkWindow_shape _ _ _ _ Hg H4 H5, hlen2]

/-! ### Counting `%COMMAND%` occurrences in the rewritten value -/

theorem containsSub_cons_false {c : Char} {t pat : List Char}
    (h : containsSub (c :: t) pat = false) : containsSub t pat = false := by
  rw [containsSub_false_iff] at h ⊢
  intro j
  have := h (j + 1)
  rwa [occursAt_cons_succ] at this

theorem countSub_cons (c : Char) (t pat : List Char) :
    countSub (c :: t) pat =
      (bif pat.isPrefixOf (c :: t) then 1 else 0) + countSub t pat := rfl

theorem countSub_append_no_pct {x : List Char} :
    ∀ {a : List Char}, (∀ c ∈ a, c ≠ '%') →
      countSub (a ++ x) commandTok = countSub x commandTok := by
  intro a
  induction a with
  | nil => intro; rfl
  | cons c t ih =>
    intro ha
    have hc : c ≠ '%' := ha c (by simp)
    have hpre : commandTok.isPrefixOf (c :: (t ++ x)) = false := by
      apply bool_false_of_not
      intro hp
      rw [show commandTok = '%' :: "COMMAND%".toList from by decide,
        isPrefixOf_eq_true_iff, List.cons_prefix_cons] at hp
      exact hc hp.1.symm
    rw [show ((c :: t) ++ x) = c :: (t ++ x) from rfl, countSub_cons, hpre]
    simp only [cond_false, Nat.zero_add]
    exact ih (fun d hd => ha d (by simp [hd]))

theorem countSub_cmd_block (S : List Char) :
    containsSub S commandTok = false →
    countSub (S ++ (' ' :: commandTok)) commandTok = 1 := by
  induction S with
  | nil =>
    intro
    decide
  | cons c t ih =>
    intro hS
    have hpre : commandTok.isPrefixOf (c :: (t ++ (' ' :: commandTok))) = false := by
      apply bool_false_of_not
      intro hp
      rw [isPrefixOf_eq_true_iff] at hp
      rw [show (c :: (t ++ (' ' :: commandTok))) =
        (c :: t) ++ (' ' :: commandTok) from rfl] at hp
      by_cases hlen : 9 ≤ (c :: t).length
      · rw [prefix_append_iff_of_le
          (by rw [show commandTok.length = 9 from by decide]; omega)] at hp
        have ho : occursAt (c :: t) commandTok 0 = true := by
          rw [occursAt_zero]
          exact isPrefixOf_eq_true_iff.mpr hp
        have hcon := containsSub_of_occursAt ho
        rw [hS] at hcon
        cases hcon
      · have htk := List.prefix_iff_eq_take.mp hp
        have hget : commandTok[(c :: t).length]? = some ' ' := by
          have hcg := congrArg (fun l => l[(c :: t).length]?) htk
          simp only at hcg
          rw [List.getElem?_take, if_pos
            (by rw [show commandTok.length = 9 from by decide]; omega),
            List.getElem?_append_right (Nat.le_refl _)] at hcg
          simpa using hcg
        have hforbid : ∀ i, i < 9 → 1 ≤ i → commandTok[i]? ≠ some ' ' := by decide
        exact hforbid (c :: t).length (by omega) (by simp) hget
    rw [show ((c :: t) ++ (' ' :: commandTok)) =
      c :: (t ++ (' ' :: commandTok)) from rfl, countSub_cons, hpre]
    simp only [cond_false, Nat.zero_add]
    exact ih (containsSub_cons_false hS)

theorem countSub_new_options {S : List Char}
    (hS : containsSub S commandTok = false) :
    countSub (new_options S) commandTok = 1 := by
  unfold new_options
  cases hemp : S.isEmpty
  · rw [if_neg (by simp),
      show " %COMMAND%".toList = ' ' :: commandTok from by decide,
      List.append_assoc,
      countSub_append_no_pct (by decide : ∀ c ∈ "protonhax init ".toList, c ≠ '%')]
    exact countSub_cmd_block S hS
  · rw [if_pos rfl]
    decide

/-! ### The rewritten value starts with the wrapper and adds no quote -/

theorem dq_not_mem_new_options {S : List Char} (h : dq ∉ S) :
    dq ∉ new_options S := by
  unfold new_options
  cases hemp : S.isEmpty
  · rw [if_neg (by simp)]
    intro hmem
    simp only [List.mem_append] at hmem
    rcases hmem with (hp | hs) | ht
    · exact absurd hp (by decide)
    · exact h hs
    · exact absurd ht (by decide)
  · rw [if_pos rfl]
    decide

theorem new_options_has_protonhax (S : List Char) :
    containsSub (new_options S) protonhaxTok = true := by
  apply @containsSub_of_occursAt _ _ 0
  rw [occursAt_zero]
  unfold new_options
  cases hemp : S.isEmpty
  · rw [if_neg (by simp), isPrefixOf_eq_true_iff, List.append_assoc,
      prefix_append_iff_of_le (by decide)]
    exact isPrefixOf_eq_true_iff.mp (by decide)
  · rw [if_pos rfl]
    decide

theorem configure_of_configured {content appId : List Char}
    (h : has_protonhax_configured content appId = true) :
    configure_launch_options content appId =
      .ok (content, "Launch options already configured") := by
  unfold configure_launch_options
  rw [ite_of_true h]

/-! ### Claim C4: the rewrite formula for an existing value -/

/-- C4: for every existing launch-options value `S` (between the value
quotes of a well-formed app section) that does not contain `protonhax`, with
its key inside the installer's 500-byte window after the brace, the
installer rewrites the value to exactly `protonhax init ` ++ S ++
` %COMMAND%` when `S` is non-empty and `protonhax init %COMMAND%` when `S`
is empty, keeping all other bytes. -/
theorem c4_rewrite (pre A mid gap sep S rest : List Char)
    (H1 : ∀ j, j < pre.length →
      occursAt (vdfPrefix pre A mid gap sep) (vdfQuote A) j = false)
    (H2 : lb ∉ mid)
    (H3 : ∀ j, j < pre.length + (vdfQuote A).length + mid.length + 1 + gap.length →
      pre.length ≤ j →
      occursAt (vdfPrefix pre A mid gap sep) launchOptionsKey j = false)
    (H4 : dq ∉ sep) (H5 : dq ∉ S) (H6 : gap.length + 15 ≤ 500)
    (HS : containsSub S protonhaxTok = false) :
    configure_launch_options (vdfA pre A mid gap sep S rest) A =
      .ok (vdfPrefix pre A mid gap sep
          ++ (if S = [] then "protonhax init %COMMAND%".toList
              else "protonhax init ".toList ++ S ++ " %COMMAND%".toList)
          ++ ([dq] ++ rest),
        "Launch options configured successfully") := by
  have H0 : has_protonhax_configured (vdfA pre A mid gap sep S rest) A = false := by
    rw [hpx_vdfA pre A mid gap sep S rest H1 H3 H4 H5, HS, Bool.and_false]
  rw [install_vdfA pre A mid gap sep S rest H0 H1 H2 H3 H4 H5 H6]
  have hno : new_options S =
      (if S = [] then "protonhax init %COMMAND%".toList
        else "protonhax init ".toList ++ S ++ " %COMMAND%".toList) := by
    unfold new_options
    cases S with
    | nil => rfl
    | cons a t => rw [if_neg (fun h => Bool.noConfusion h), if_neg (by simp)]
  rw [hno]
  simp [vdfA, List.append_assoc]

theorem c4_rewrite_witness :
    (∀ j, j < wPre.length →
      occursAt (vdfPrefix wPre wA wMid wGap wSep) (vdfQuote wA) j = false) ∧
    lb ∉ wMid ∧
    (∀ j, j < wPre.length + (vdfQuote wA).length + wMid.length + 1 + wGap.length →
      wPre.length ≤ j →
      occursAt (vdfPrefix wPre wA wMid wGap wSep) launchOptionsKey j = false) ∧
    dq ∉ wSep ∧ dq ∉ wS ∧ wGap.length + 15 ≤ 500 ∧
    containsSub wS protonhaxTok = false ∧
    configure_launch_options (vdfA wPre wA wMid wGap wSep wS wRest) wA =
      .ok (vdfPrefix wPre wA wMid wGap wSep
          ++ (if wS = [] then "protonhax init %COMMAND%".toList
              else "protonhax init ".toList ++ wS ++ " %COMMAND%".toList)
          ++ ([dq] ++ wRest),
        "Launch options configured successfully") :=
  ⟨by decide, by decide, by decide, by decide, by decide, by decide, by decide,
    c4_rewrite wPre wA wMid wGap wSep wS wRest (by decide) (by decide) (by decide)
      (by decide) (by decide) (by decide) (by decide)⟩

/-! ### Claim C1 (amended): after an aligned rewrite the checker reports true -/

/-- C1 amended: on a well-formed app section whose existing value `S` lacks
`protonhax`, with the key in the installer's window, the installer performs
the rewrite and — provided the rewritten value and its closing quote lie
within 500 bytes of the app-id token (the checker's window, which is
anchored earlier than the installer's) — the checker then reports true.
Without that alignment bound the claim fails, as `ceMisaligned` shows. -/
theorem c1_amended (pre A mid gap sep S rest : List Char)
    (H1 : ∀ j, j < pre.length →
      occursAt (vdfPrefix pre A mid gap sep) (vdfQuote A) j = false)
    (H2 : lb ∉ mid)
    (H3 : ∀ j, j < pre.length + (vdfQuote A).length + mid.length + 1 + gap.length →
      pre.length ≤ j →
      occursAt (vdfPrefix pre A mid gap sep) launchOptionsKey j = false)
    (H4 : dq ∉ sep) (H5 : dq ∉ S) (H6 : gap.length + 15 ≤ 500)
    (HS : containsSub S protonhaxTok = false)
    (Hb : (vdfQuote A).length + mid.length + 1 + gap.length + 15 + sep.length + 1
      + (new_options S).length + 1 ≤ 500) :
    configure_launch_options (vdfA pre A mid gap sep S rest) A =
      .ok (vdfA pre A mid gap sep (new_options S) rest,
        "Launch options configured successfully") ∧
    has_protonhax_configured (vdfA pre A mid gap sep (new_options S) rest) A = true := by
  have H0 : has_protonhax_configured (vdfA pre A mid gap sep S rest) A = false := by
    rw [hpx_vdfA pre A mid gap sep S rest H1 H3 H4 H5, HS, Bool.and_false]
  refine ⟨install_vdfA pre A mid gap sep S rest H0 H1 H2 H3 H4 H5 H6, ?_⟩
  rw [hpx_vdfA pre A mid gap sep (new_options S) rest H1 H3 H4
    (dq_not_mem_new_options H5), new_options_has_protonhax, Bool.and_true]
  exact decide_eq_true Hb

theorem c1_amended_witness :
    containsSub wS protonhaxTok = false ∧
    ((vdfQuote wA).length + wMid.length + 1 + wGap.length + 15 + wSep.length + 1
      + (new_options wS).length + 1 ≤ 500) ∧
    (configure_launch_options (vdfA wPre wA wMid wGap wSep wS wRest) wA =
      .ok (vdfA wPre wA wMid wGap wSep (new_options wS) wRest,
        "Launch options configured successfully") ∧
    has_protonhax_configured (vdfA wPre wA wMid wGap wSep (new_options wS) wRest) wA
      = true) :=
  ⟨by decide, by decide,
    c1_amended wPre wA wMid wGap wSep wS wRest (by decide) (by decide) (by decide)
      (by decide) (by decide) (by decide) (by decide) (by decide)⟩

/-! ### Claim C2 (amended): the aligned install is idempotent -/

/-- C2 amended: on a well-formed app section whose rewritten value stays
within the checker's window, the second application of the installer returns
the first application's output unchanged (with the already-configured
message), so installing twice equals installing once.  Without the window
alignment the claim fails, as `ceMisaligned` shows. -/
theorem c2_amended (pre A mid gap sep S rest : List Char)
    (H1 : ∀ j, j < pre.length →
      occursAt (vdfPrefix pre A mid gap sep) (vdfQuote A) j = false)
    (H2 : lb ∉ mid)
    (H3 : ∀ j, j < pre.length + (vdfQuote A).length + mid.length + 1 + gap.length →
      pre.length ≤ j →
      occursAt (vdfPrefix pre A mid gap sep) launchOptionsKey j = false)
    (H4 : dq ∉ sep) (H5 : dq ∉ S) (H6 : gap.length + 15 ≤ 500)
    (HS : containsSub S protonhaxTok = false)
    (Hb : (vdfQuote A).length + mid.length + 1 + gap.length + 15 + sep.length + 1
      + (new_options S).length + 1 ≤ 500) :
    configure_launch_options (vdfA pre A mid gap sep S rest) A =
      .ok (vdfA pre A mid gap sep (new_options S) rest,
        "Launch options configured successfully") ∧
    configure_launch_options (vdfA pre A mid gap sep (new_options S) rest) A =
      .ok (vdfA pre A mid gap sep (new_options S) rest,
        "Launch options already configured") ∧
    applyConfigure (applyConfigure (vdfA pre A mid gap sep S rest) A) A =
      applyConfigure (vdfA pre A mid gap sep S rest) A := by
  have H0 : has_protonhax_configured (vdfA pre A mid gap sep S rest) A = false := by
    rw [hpx_vdfA pre A mid gap sep S rest H1 H3 H4 H5, HS, Bool.and_false]
  have hfirst := install_vdfA pre A mid gap sep S rest H0 H1 H2 H3 H4 H5 H6
  have htrue : has_protonhax_configured (vdfA pre A mid gap sep (new_options S) rest) A
      = true := by
    rw [hpx_vdfA pre A mid gap sep (new_options S) rest H1 H3 H4
      (dq_not_mem_new_options H5), new_options_has_protonhax, Bool.and_true]
    exact decide_eq_true Hb
  have hsecond := configure_of_configured htrue
  refine ⟨hfirst, hsecond, ?_⟩
  unfold applyConfigure
  rw [hfirst, hsecond]

theorem c2_amended_witness :
    containsSub wS protonhaxTok = false ∧
    (configure_launch_options (vdfA wPre wA wMid wGap wSep wS wRest) wA =
      .ok (vdfA wPre wA wMid wGap wSep (new_options wS) wRest,
        "Launch options configured successfully") ∧
    configure_launch_options (vdfA wPre wA wMid wGap wSep (new_options wS) wRest) wA =
      .ok (vdfA wPre wA wMid wGap wSep (new_options wS) wRest,
        "Launch options already configured") ∧
    applyConfigure (applyConfigure (vdfA wPre wA wMid wGap wSep wS wRest) wA) wA =
      applyConfigure (vdfA wPre wA wMid wGap wSep wS wRest) wA) :=
  ⟨by decide,
    c2_amended wPre wA wMid wGap wSep wS wRest (by decide) (by decide) (by decide)
      (by decide) (by decide) (by decide) (by decide) (by decide)⟩

/-! ### Claim C3 (amended): one `%COMMAND%` when the old value had none -/

/-- C3 amended: for every successful rewrite of an existing value `S`, the
final launch-options value contains `%COMMAND%` exactly once provided `S`
did not already contain it; when `S` contains the token the installer
appends another copy (see the counterexample on `ceCmdTwice`), so exactly-once fails for such
values. -/
theorem c3_amended (pre A mid gap sep S rest : List Char)
    (H1 : ∀ j, j < pre.length →
      occursAt (vdfPrefix pre A mid gap sep) (vdfQuote A) j = false)
    (H2 : lb ∉ mid)
    (H3 : ∀ j, j < pre.length + (vdfQuote A).length + mid.length + 1 + gap.length →
      pre.length ≤ j →
      occursAt (vdfPrefix pre A mid gap sep) launchOptionsKey j = false)
    (H4 : dq ∉ sep) (H5 : dq ∉ S) (H6 : gap.length + 15 ≤ 500)
    (HS : containsSub S protonhaxTok = false)
    (HSc : containsSub S commandTok = false) :
    configure_launch_options (vdfA pre A mid gap sep S rest) A =
      .ok (vdfA pre A mid gap sep (new_options S) rest,
        "Launch options configured successfully") ∧
    countSub (new_options S) commandTok = 1 := by
  have H0 : has_protonhax_configured (vdfA pre A mid gap sep S rest) A = false := by
    rw [hpx_vdfA pre A mid gap sep S rest H1 H3 H4 H5, HS, Bool.and_false]
  exact ⟨install_vdfA pre A mid gap sep S rest H0 H1 H2 H3 H4 H5 H6,
    countSub_new_options HSc⟩

theorem c3_amended_witness :
    containsSub wS commandTok = false ∧
    (configure_launch_options (vdfA wPre wA wMid wGap wSep wS wRest) wA =
      .ok (vdfA wPre wA wMid wGap wSep (new_options wS) wRest,
        "Launch options configured successfully") ∧
    countSub (new_options wS) commandTok = 1) :=
  ⟨by decide,
    c3_amended wPre wA wMid wGap wSep wS wRest (by decide) (by decide) (by decide)
      (by decide) (by decide) (by decide) (by decide) (by decide)⟩

/-! ### Claim C8: the Steam-path locator -/

/-- C8: `get_localconfig_path` (over the abstracted filesystem) returns a
path only for the first all-digit directory child of `userdata`, the path
being `<root>/userdata/<uid>/config/localconfig.vdf`; and in every failure
case — Steam root unresolved, `userdata` missing, `read_dir` failing, no
all-digit directory child, or `localconfig.vdf` absent — it returns `none`
(the model is a total function: every Rust error is converted into `None`,
never raised). -/
theorem c8_locate (fs : SteamFS) :
    (∀ p, get_localconfig_path fs = some p →
      ∃ root entries pre e post,
        fs.steamRoot = some root ∧
        fs.pathExists (root ++ ["userdata"]) = true ∧
        fs.readDir (root ++ ["userdata"]) = some entries ∧
        entries = pre ++ e :: post ∧
        (e.isDir && e.name.toList.all Char.isDigit) = true ∧
        (∀ e2 ∈ pre, (e2.isDir && e2.name.toList.all Char.isDigit) = false) ∧
        p = root ++ ["userdata"] ++ [e.name] ++ ["config", "localconfig.vdf"] ∧
        fs.pathExists p = true) ∧
    (fs.steamRoot = none → get_localconfig_path fs = none) ∧
    (∀ root, fs.steamRoot = some root →
      fs.pathExists (root ++ ["userdata"]) = false →
      get_localconfig_path fs = none) ∧
    (∀ root, fs.steamRoot = some root →
      fs.readDir (root ++ ["userdata"]) = none →
      get_localconfig_path fs = none) ∧
    (∀ root entries, fs.steamRoot = some root →
      fs.readDir (root ++ ["userdata"]) = some entries →
      (∀ e ∈ entries, (e.isDir && e.name.toList.all Char.isDigit) = false) →
      get_localconfig_path fs = none) ∧
    (∀ userdata, find_steam_userdata_path fs = some userdata →
      fs.pathExists (userdata ++ ["config", "localconfig.vdf"]) = false →
      get_localconfig_path fs = none) := by
  refine ⟨?_, ?_, ?_, ?_, ?_, ?_⟩
  · intro p hp
    unfold get_localconfig_path at hp
    split at hp
    · exact Option.noConfusion hp
    · rename_i userdata hud
      split at hp
      · rename_i hex
        injection hp with hp2
        unfold find_steam_userdata_path at hud
        split at hud
        · exact Option.noConfusion hud
        · rename_i root hroot
          split at hud
          · rename_i hudex
            split at hud
            · exact Option.noConfusion hud
            · rename_i entries hrd
              split at hud
              · exact Option.noConfusion hud
              · rename_i e hfind
                injection hud with hud2
                obtain ⟨hpred, as, bs, hsplit, hall⟩ := List.find?_eq_some.mp hfind
                refine ⟨root, entries, as, e, bs, hroot, hudex, hrd, hsplit, hpred,
                  ?_, ?_, ?_⟩
                · intro e2 he2
                  have := hall e2 he2
                  rwa [Bool.not_eq_eq_eq_not, Bool.not_true] at this
                · rw [← hp2, ← hud2]
                · rw [← hp2]
                  exact hex
          · exact Option.noConfusion hud
      · exact Option.noConfusion hp
  · intro h
    have hf : find_steam_userdata_path fs = none := by
      unfold find_steam_userdata_path
      simp only [h]
    unfold get_localconfig_path
    simp only [hf]
  · intro root hroot hnoud
    have hf : find_steam_userdata_path fs = none := by
      unfold find_steam_userdata_path
      simp only [hroot, ite_of_false hnoud]
    unfold get_localconfig_path
    simp only [hf]
  · intro root hroot hrd
    have hf : find_steam_userdata_path fs = none := by
      unfold find_steam_userdata_path
      simp only [hroot]
      by_cases hex : fs.pathExists (root ++ ["userdata"]) = true
      · simp only [ite_of_true hex, hrd]
      · simp only [ite_of_false (bool_false_of_not hex)]
    unfold get_localconfig_path
    simp only [hf]
  · intro root entries hroot hrd hnone
    have hf : find_steam_userdata_path fs = none := by
      unfold find_steam_userdata_path
      simp only [hroot]
      by_cases hex : fs.pathExists (root ++ ["userdata"]) = true
      · have hfind : entries.find?
            (fun e => e.isDir && e.name.toList.all Char.isDigit) = none := by
          rw [List.find?_eq_none]
          intro x hx
          rw [hnone x hx]
          exact Bool.false_ne_true
        simp only [ite_of_true hex, hrd, hfind]
      · simp only [ite_of_false (bool_false_of_not hex)]
    unfold get_localconfig_path
    simp only [hf]
  · intro userdata hud hmiss
    unfold get_localconfig_path
    simp only [hud, ite_of_false hmiss]

/-- A concrete filesystem for the locator: one non-digit directory before
the digit one, and the config file present. -/
def wFS : SteamFS :=
  ⟨some ["steam"],
    fun p => p == ["steam", "userdata"]
      || p == ["steam", "userdata", "77", "config", "localconfig.vdf"],
    fun p => if p == ["steam", "userdata"]
      then some [⟨"compatdata", false⟩, ⟨"ac1", true⟩, ⟨"77", true⟩]
      else none⟩

theorem c8_locate_witness :
    get_localconfig_path wFS =
      some ["steam", "userdata", "77", "config", "localconfig.vdf"] ∧
    (∃ root entries pre e post,
      wFS.steamRoot = some root ∧
      wFS.pathExists (root ++ ["userdata"]) = true ∧
      wFS.readDir (root ++ ["userdata"]) = some entries ∧
      entries = pre ++ e :: post ∧
      (e.isDir && e.name.toList.all Char.isDigit) = true ∧
      (∀ e2 ∈ pre, (e2.isDir && e2.name.toList.all Char.isDigit) = false) ∧
      ["steam", "userdata", "77", "config", "localconfig.vdf"] =
        root ++ ["userdata"] ++ [e.name] ++ ["config", "localconfig.vdf"] ∧
      wFS.pathExists ["steam", "userdata", "77", "config", "localconfig.vdf"] = true) :=
  ⟨by decide, (c8_locate wFS).1 _ (by decide)⟩

end Protonic
